import Mathlib

/-!
Shallow embedding of the `use-detector` observer registry.

The embedded code is the `ObserverManager` class of the repository
(`src/unnamed/part_003`): a keyed map of observation entries, an
animation-frame handle, and a key counter, together with the hook layer
(`useDetector` / `useValue` from `src/src/use-detector.ts`).

Modelling choices, all driven by the source:
* the JavaScript `Map` is an insertion-ordered association list; `set`
  replaces in place, `delete` removes, and `for ... of map.values()` is a
  live iteration (a not-yet-visited entry deleted during the loop is
  skipped, which the embedding reproduces by repeatedly taking the first
  entry of the current map whose key has not been visited);
* each hook's `prevRef` is a mutable ref cell owned by the component, so
  ref cells live in a heap (`refs : List T`) separate from the entry map
  and survive unregistration; an entry stores the index of its cell;
* a `trigger` (notify) callback is modelled by its effect on the registry:
  the list of keys it synchronously unregisters when invoked.  A plain
  React state flip, which does not touch the registry, is `[]`;
* `requestAnimationFrame` handles are minted from a counter
  (`handleCounter`); `cancelAnimationFrame` simply drops the handle.
-/

/-- An observation entry of the `ObserverManager`.  `getNewValue` reads the
external world `σ`; `compare` decides equality for notification purposes;
`trigger` is the notify callback modelled by the keys it unregisters;
`prevRef` is the index of the entry's ref cell in the ref heap. -/
structure ObserverEntry (σ T : Type) where
  getNewValue : σ → T
  compare : T → T → Bool
  trigger : List String
  prevRef : Nat

/-- The state of the `ObserverManager` singleton together with the ref heap
holding every hook's `prevRef.current` cell.  `observers` is the insertion
ordered key/entry map, `animationId` the pending animation-frame handle,
`idCounter` the key-generation counter (an `Int`, since `unregister`
decrements it), `handleCounter` mints fresh animation-frame handles. -/
structure ManagerState (σ T : Type) where
  observers : List (String × ObserverEntry σ T)
  animationId : Option Nat
  idCounter : Int
  handleCounter : Nat
  refs : List T

namespace ObserverManager

variable {σ T : Type}

/-- A fresh manager (`new ObserverManager()`), with a given ref heap
standing for the ref cells the host components have allocated. -/
def initial (refs : List T) : ManagerState σ T :=
  { observers := [], animationId := none, idCounter := 0, handleCounter := 0,
    refs := refs }

/-- JavaScript `Map.prototype.set`: replace in place if the key is present,
append otherwise. -/
def mapSet (k : String) (v : ObserverEntry σ T) :
    List (String × ObserverEntry σ T) → List (String × ObserverEntry σ T)
  | [] => [(k, v)]
  | (k', v') :: rest =>
      if k' = k then (k, v) :: rest else (k', v') :: mapSet k v rest

/-- JavaScript `Map.prototype.get` on the entry map. -/
def lookup (k : String) :
    List (String × ObserverEntry σ T) → Option (ObserverEntry σ T)
  | [] => none
  | (k', v') :: rest => if k' = k then some v' else lookup k rest

/-- `ObserverManager.register`: `observers.set(key, entry)`, then start the
loop if it is not running (`animationId === null`). -/
def register (key : String) (getNewValue : σ → T) (compare : T → T → Bool)
    (trigger : List String) (prevRef : Nat) (s : ManagerState σ T) :
    ManagerState σ T :=
  let e : ObserverEntry σ T :=
    { getNewValue := getNewValue, compare := compare, trigger := trigger,
      prevRef := prevRef }
  let s1 := { s with observers := mapSet key e s.observers }
  match s1.animationId with
  | none => { s1 with animationId := some s1.handleCounter,
                      handleCounter := s1.handleCounter + 1 }
  | some _ => s1

/-- `ObserverManager.unregister`: `observers.delete(key)`, then
`this.idCounter--` (unconditionally), then stop the loop if the map became
empty while a frame was pending. -/
def unregister (key : String) (s : ManagerState σ T) : ManagerState σ T :=
  let s1 := { s with observers := s.observers.filter (fun p => p.1 ≠ key),
                     idCounter := s.idCounter - 1 }
  if s1.observers.isEmpty ∧ s1.animationId ≠ none then
    { s1 with animationId := none }
  else s1

/-- `ObserverManager.generateKey`: returns `"observer_" + idCounter` and
post-increments the counter. -/
def generateKey (s : ManagerState σ T) : String × ManagerState σ T :=
  ("observer_" ++ toString s.idCounter, { s with idCounter := s.idCounter + 1 })

/-- Write a ref cell (`prevRef.current = newValue`). -/
def setRefAt (i : Nat) (v : T) (s : ManagerState σ T) : ManagerState σ T :=
  { s with refs := s.refs.set i v }

/-- The first entry of the current map whose key has not been visited yet:
the next entry a live JavaScript `Map` iterator yields. -/
def findUnvisited (visited : List String) :
    List (String × ObserverEntry σ T) → Option (String × ObserverEntry σ T)
  | [] => none
  | (k, e) :: rest =>
      if k ∈ visited then findUnvisited visited rest else some (k, e)

/-- The body of `ObserverManager.update`'s `for ... of` loop under live-map
iteration.  Returns the final state, the list of keys whose `getNewValue`
was evaluated (in order), and the list of keys whose `trigger` fired (in
order).  `fuel` bounds the number of iterations; `update` supplies enough
fuel for the loop to run to completion. -/
def updateLoop (w : σ) [Inhabited T] :
    Nat → List String → ManagerState σ T →
    ManagerState σ T × List String × List String
  | 0, _, s => (s, [], [])
  | fuel + 1, visited, s =>
    match findUnvisited visited s.observers with
    | none => (s, [], [])
    | some (k, e) =>
        let newValue := e.getNewValue w
        if e.compare (s.refs.getD e.prevRef default) newValue then
          let r := updateLoop w fuel (k :: visited) s
          (r.1, k :: r.2.1, r.2.2)
        else
          let s1 := setRefAt e.prevRef newValue s
          let s2 := e.trigger.foldl (fun acc k2 => unregister k2 acc) s1
          let r := updateLoop w fuel (k :: visited) s2
          (r.1, k :: r.2.1, k :: r.2.2)

/-- `ObserverManager.update`: iterate over the live entry map, evaluating
each entry's getter, comparing with the stored previous value, and on
mismatch writing the new value to the ref and firing the trigger; then
unconditionally reschedule (`this.animationId = f(this.update)`). -/
def update (w : σ) [Inhabited T] (s : ManagerState σ T) :
    ManagerState σ T × List String × List String :=
  let r := updateLoop w s.observers.length [] s
  ({ r.1 with animationId := some r.1.handleCounter,
              handleCounter := r.1.handleCounter + 1 }, r.2.1, r.2.2)

/-- The keys currently registered, in map order. -/
def keys (s : ManagerState σ T) : List String :=
  s.observers.map Prod.fst

/-- The loop-lifecycle invariant stated by the specification: the
animation-frame handle is set iff the entry map is non-empty. -/
def loopInv (s : ManagerState σ T) : Prop :=
  s.animationId.isSome = !s.observers.isEmpty

/-- Run one `update` tick per world in the given list, collecting every key
fired across all ticks. -/
def runTicks [Inhabited T] : List σ → ManagerState σ T →
    ManagerState σ T × List String
  | [], s => (s, [])
  | w :: ws, s =>
      let r := update w s
      let rest := runTicks ws r.1
      (rest.1, r.2.2 ++ rest.2)

/-- The number of entries of the map `l` whose key has not been visited:
the termination measure of the live iteration. -/
def unvisitedCount (visited : List String)
    (l : List (String × ObserverEntry σ T)) : Nat :=
  l.countP (fun p => decide (p.1 ∉ visited))

end ObserverManager

/-- What one render-phase call of a hook does: the key it will register
under (if supplied), the getter, the resolved comparator, the value placed
in the ref on first render, and the value returned to the component. -/
structure HookCall (σ T : Type) where
  regKey : Option String
  getNewValue : σ → T
  compare : T → T → Bool
  refInit : T
  ret : T

/-- The `useDetector` hook (the `T`-returning variant of
`src/src/use-detector.ts` that `useValue` is built on): records the
registration data, resolves the comparator default `(o, n) => o === n`,
and returns `getNewValue()` evaluated synchronously during the render. -/
def useDetector {σ T : Type} [BEq T] (oldValue : T) (getNewValue : σ → T)
    (compare : Option (T → T → Bool)) (key : Option String) (w : σ) :
    HookCall σ T :=
  { regKey := key, getNewValue := getNewValue,
    compare := compare.getD (fun o n => o == n),
    refInit := oldValue, ret := getNewValue w }

/-- The `useValue` hook:
`useValue = (getValue, compare?, key?) => useDetector(getValue(), getValue, compare, key)`. -/
def useValue {σ T : Type} [BEq T] (getValue : σ → T)
    (compare : Option (T → T → Bool)) (key : Option String) (w : σ) :
    HookCall σ T :=
  useDetector (getValue w) getValue compare key w

/-! Concrete registry states used to evaluate the operations on explicit
inputs (the world type is `Unit`, the observed type `Nat`). -/

/-- One entry `"a"` whose getter returns 1, strict-equality comparator, an
effect-free notify, ref cell 0 holding 0. -/
def exampleEntryState : ManagerState Unit Nat :=
  ObserverManager.register "a" (fun _ => 1) (fun a b => a == b) [] 0
    (ObserverManager.initial [0])

/-- One entry `"a"` whose notify callback synchronously unregisters `"a"`
itself, emptying the registry from within the tick. -/
def exampleSelfUnreg : ManagerState Unit Nat :=
  ObserverManager.register "a" (fun _ => 1) (fun a b => a == b) ["a"] 0
    (ObserverManager.initial [0])

/-- Two entries: `"a"` (iterated first) whose notify callback unregisters
`"b"`, and `"b"`, effect-free.  Both compare unequal on the first tick. -/
def exampleUnregOther : ManagerState Unit Nat :=
  ObserverManager.register "b" (fun _ => 1) (fun a b => a == b) [] 1
    (ObserverManager.register "a" (fun _ => 1) (fun a b => a == b) ["b"] 0
      (ObserverManager.initial [0, 0]))

/-- First registration of `"k"`: getter returns 5, ref cell 0 holds 5 (the
stored previous value equals the getter's value, so no notification is
due). -/
def exampleRereg1 : ManagerState Unit Nat :=
  ObserverManager.register "k" (fun _ => 5) (fun a b => a == b) [] 0
    (ObserverManager.initial [5, 99])

/-- Re-registration of `"k"` with the same getter but a different ref cell
(index 1, holding 99): the comparison baseline changes. -/
def exampleRereg2 : ManagerState Unit Nat :=
  ObserverManager.register "k" (fun _ => 5) (fun a b => a == b) [] 1
    exampleRereg1

/-- An entry registered twice under `"k"`: the second registration's getter
returns 7 and uses strict equality. -/
def exampleOverwrite : ManagerState Unit Nat :=
  ObserverManager.register "k" (fun _ => 7) (fun a b => a == b) [] 0
    (ObserverManager.register "k" (fun _ => 2) (fun b c => b == 0) ["x"] 0
      (ObserverManager.initial [0]))

/-- Re-registration of `"k"` that supplies the same ref cell (index 0)
again, as a hook re-rendering with a changed getter does: the stored
previous value 5 stays the baseline. -/
def exampleReregSame : ManagerState Unit Nat :=
  ObserverManager.register "k" (fun _ => 5) (fun a b => a == b) [] 0
    (ObserverManager.register "k" (fun _ => 9) (fun a b => a == b) [] 0
      (ObserverManager.initial [5]))

/-- One entry `"c"` whose comparator returns true on every pair. -/
def exampleConstTrue : ManagerState Unit Nat :=
  ObserverManager.register "c" (fun _ => 3) (fun x y => true) [] 0
    (ObserverManager.initial [0])

/-- One entry `"q"` whose stored previous value already equals the
getter's value under strict equality. -/
def exampleQuiet : ManagerState Unit Nat :=
  ObserverManager.register "q" (fun _ => 5) (fun a b => a == b) [] 0
    (ObserverManager.initial [5])

namespace ObserverManager

variable {σ T : Type}

/-! Helper lemmas about the map, ref-heap and iterator primitives. -/

theorem getD_set_ne (l : List T) (i j : Nat) (v d : T) (h : i ≠ j) :
    (l.set i v).getD j d = l.getD j d := by
  rw [List.getD_eq_getElem?_getD, List.getD_eq_getElem?_getD,
    List.getElem?_set_ne h]

theorem getD_set_self (l : List T) (i : Nat) (v d : T) (h : i < l.length) :
    (l.set i v).getD i d = v := by
  rw [List.getD_eq_getElem?_getD, List.getElem?_set_self h]
  rfl

theorem lookup_mapSet_self (k : String) (v : ObserverEntry σ T)
    (l : List (String × ObserverEntry σ T)) :
    lookup k (mapSet k v l) = some v := by
  induction l with
  | nil => simp [mapSet, lookup]
  | cons p rest ih =>
      by_cases h : p.1 = k
      · simp [mapSet, lookup, h]
      · simp [mapSet, lookup, h, ih]

theorem mem_mapSet_self (k : String) (v : ObserverEntry σ T)
    (l : List (String × ObserverEntry σ T)) :
    (k, v) ∈ mapSet k v l := by
  induction l with
  | nil => simp [mapSet]
  | cons p rest ih =>
      by_cases h : p.1 = k
      · simp [mapSet, h]
      · simp only [mapSet, if_neg h]
        exact List.mem_cons_of_mem _ ih

theorem keys_mapSet_of_mem (k : String) (v : ObserverEntry σ T)
    (l : List (String × ObserverEntry σ T)) (h : k ∈ l.map Prod.fst) :
    (mapSet k v l).map Prod.fst = l.map Prod.fst := by
  induction l with
  | nil => simp at h
  | cons p rest ih =>
      by_cases hp : p.1 = k
      · simp [mapSet, hp]
      · simp only [List.map_cons, List.mem_cons] at h
        rcases h with h | h
        · exact absurd h.symm hp
        · simp [mapSet, hp, ih h]

theorem keys_mapSet_of_not_mem (k : String) (v : ObserverEntry σ T)
    (l : List (String × ObserverEntry σ T)) (h : k ∉ l.map Prod.fst) :
    (mapSet k v l).map Prod.fst = l.map Prod.fst ++ [k] := by
  induction l with
  | nil => simp [mapSet]
  | cons p rest ih =>
      simp only [List.map_cons, List.mem_cons] at h
      push_neg at h
      have hp : p.1 ≠ k := fun hp => h.1 hp.symm
      simp [mapSet, hp, ih h.2]

theorem keys_mapSet_nodup (k : String) (v : ObserverEntry σ T)
    (l : List (String × ObserverEntry σ T)) (h : (l.map Prod.fst).Nodup) :
    ((mapSet k v l).map Prod.fst).Nodup := by
  by_cases hk : k ∈ l.map Prod.fst
  · rw [keys_mapSet_of_mem k v l hk]; exact h
  · rw [keys_mapSet_of_not_mem k v l hk]
    refine List.Nodup.append h (List.nodup_singleton k) ?_
    intro a ha hak
    rw [List.mem_singleton] at hak
    subst hak
    exact hk ha

theorem count_keys_mapSet (k : String) (v : ObserverEntry σ T)
    (l : List (String × ObserverEntry σ T)) (h : (l.map Prod.fst).Nodup) :
    ((mapSet k v l).map Prod.fst).count k = 1 :=
  List.count_eq_one_of_mem (keys_mapSet_nodup k v l h)
    (by simpa using ⟨v, mem_mapSet_self k v l⟩)

theorem unregister_observers (key : String) (s : ManagerState σ T) :
    (unregister key s).observers = s.observers.filter (fun p => p.1 ≠ key) := by
  simp only [unregister]
  split <;> rfl

theorem unregister_refs (key : String) (s : ManagerState σ T) :
    (unregister key s).refs = s.refs := by
  simp only [unregister]
  split <;> rfl

theorem unregister_handleCounter (key : String) (s : ManagerState σ T) :
    (unregister key s).handleCounter = s.handleCounter := by
  simp only [unregister]
  split <;> rfl

theorem unregister_observers_sublist (key : String) (s : ManagerState σ T) :
    (unregister key s).observers.Sublist s.observers := by
  rw [unregister_observers]
  exact List.filter_sublist s.observers

theorem foldl_unregister_observers_sublist (ks : List String)
    (s : ManagerState σ T) :
    ((ks.foldl (fun acc k2 => unregister k2 acc) s).observers).Sublist
      s.observers := by
  induction ks generalizing s with
  | nil => exact List.Sublist.refl _
  | cons k ks ih =>
      exact (ih (unregister k s)).trans (unregister_observers_sublist k s)

theorem foldl_unregister_refs (ks : List String) (s : ManagerState σ T) :
    (ks.foldl (fun acc k2 => unregister k2 acc) s).refs = s.refs := by
  induction ks generalizing s with
  | nil => rfl
  | cons k ks ih => rw [List.foldl_cons, ih, unregister_refs]

theorem setRefAt_observers (i : Nat) (v : T) (s : ManagerState σ T) :
    (setRefAt i v s).observers = s.observers := rfl

theorem findUnvisited_mem (visited : List String)
    (l : List (String × ObserverEntry σ T)) (k : String)
    (e : ObserverEntry σ T) (h : findUnvisited visited l = some (k, e)) :
    (k, e) ∈ l := by
  induction l with
  | nil => simp [findUnvisited] at h
  | cons p rest ih =>
      by_cases hv : p.1 ∈ visited
      · simp only [findUnvisited, if_pos hv] at h
        exact List.mem_cons_of_mem _ (ih h)
      · simp only [findUnvisited, if_neg hv, Option.some_inj] at h
        simp [← h]

theorem findUnvisited_not_visited (visited : List String)
    (l : List (String × ObserverEntry σ T)) (k : String)
    (e : ObserverEntry σ T) (h : findUnvisited visited l = some (k, e)) :
    k ∉ visited := by
  induction l with
  | nil => simp [findUnvisited] at h
  | cons p rest ih =>
      by_cases hv : p.1 ∈ visited
      · simp only [findUnvisited, if_pos hv] at h
        exact ih h
      · simp only [findUnvisited, if_neg hv, Option.some_inj] at h
        injection h with h1 h2
        subst h1
        exact hv

theorem findUnvisited_none (visited : List String)
    (l : List (String × ObserverEntry σ T))
    (h : findUnvisited visited l = none) : ∀ p ∈ l, p.1 ∈ visited := by
  induction l with
  | nil => simp
  | cons p rest ih =>
      by_cases hv : p.1 ∈ visited
      · simp only [findUnvisited, if_pos hv] at h
        intro q hq
        rcases List.mem_cons.mp hq with hq | hq
        · rw [hq]; exact hv
        · exact ih h q hq
      · simp [findUnvisited, if_neg hv] at h

theorem unvisitedCount_nil (l : List (String × ObserverEntry σ T)) :
    unvisitedCount [] l = l.length := by
  unfold unvisitedCount
  induction l with
  | nil => rfl
  | cons p rest ih => simp [List.countP_cons, ih]

theorem unvisitedCount_sublist (visited : List String)
    {l l' : List (String × ObserverEntry σ T)} (h : l'.Sublist l) :
    unvisitedCount visited l' ≤ unvisitedCount visited l :=
  List.Sublist.countP_le _ h

theorem unvisitedCount_cons_visited_le (k : String) (visited : List String)
    (l : List (String × ObserverEntry σ T)) :
    unvisitedCount (k :: visited) l ≤ unvisitedCount visited l :=
  List.countP_mono_left (by
    intro p _ hp
    simp only [decide_eq_true_eq] at hp ⊢
    exact fun hv => hp (List.mem_cons_of_mem _ hv))

theorem unvisitedCount_cons_visited_lt (k : String) (e : ObserverEntry σ T)
    (visited : List String) (l : List (String × ObserverEntry σ T))
    (hmem : (k, e) ∈ l) (hnv : k ∉ visited) :
    unvisitedCount (k :: visited) l < unvisitedCount visited l := by
  induction l with
  | nil => simp at hmem
  | cons p rest ih =>
      unfold unvisitedCount at *
      rcases List.mem_cons.mp hmem with hp | hp
      · simp only [List.countP_cons, ← hp]
        have h1 : (decide (k ∉ visited)) = true := by simpa using hnv
        have h2 : (decide (k ∉ k :: visited)) = false := by simp
        rw [h1, h2]
        simp only [if_true, if_false, Nat.add_zero]
        exact Nat.lt_succ_of_le (unvisitedCount_cons_visited_le k visited rest)
      · simp only [List.countP_cons]
        have hle : (if decide (p.1 ∉ k :: visited) = true then 1 else 0) ≤
            (if decide (p.1 ∉ visited) = true then 1 else 0) := by
          by_cases hv : p.1 ∈ visited
          · simp [hv]
          · by_cases hpk : p.1 = k <;> simp [hv, hpk]
        exact Nat.add_lt_add_of_lt_of_le (ih hp) hle

theorem measure_decrease (visited : List String) (k : String)
    (e : ObserverEntry σ T) {l l' : List (String × ObserverEntry σ T)}
    (hfind : findUnvisited visited l = some (k, e)) (hsub : l'.Sublist l) :
    unvisitedCount (k :: visited) l' < unvisitedCount visited l :=
  lt_of_le_of_lt (unvisitedCount_sublist (k :: visited) hsub)
    (unvisitedCount_cons_visited_lt k e visited l
      (findUnvisited_mem visited l k e hfind)
      (findUnvisited_not_visited visited l k e hfind))

end ObserverManager

namespace ObserverManager

variable {σ T : Type}

/-! Structural lemmas about the live-iteration loop. -/

theorem foldl_unregister_mem (ks : List String) (s : ManagerState σ T)
    (k : String) (e : ObserverEntry σ T) (hmem : (k, e) ∈ s.observers)
    (hk : k ∉ ks) :
    (k, e) ∈ (ks.foldl (fun acc k2 => unregister k2 acc) s).observers := by
  induction ks generalizing s with
  | nil => exact hmem
  | cons k2 ks ih =>
      rw [List.foldl_cons]
      refine ih (unregister k2 s) ?_ (fun h => hk (List.mem_cons_of_mem _ h))
      rw [unregister_observers]
      refine List.mem_filter.mpr ⟨hmem, ?_⟩
      simp only [ne_eq, decide_eq_true_eq]
      exact fun h => hk (h ▸ List.mem_cons_self k2 ks)

theorem nodup_keys_entry_eq {l : List (String × ObserverEntry σ T)}
    (h : (l.map Prod.fst).Nodup) {k : String} {e e' : ObserverEntry σ T}
    (h1 : (k, e) ∈ l) (h2 : (k, e') ∈ l) : e = e' := by
  have := List.inj_on_of_nodup_map h h1 h2 rfl
  exact congrArg Prod.snd this

theorem nodup_prevRef_ne {l : List (String × ObserverEntry σ T)}
    (h : (l.map (fun p => p.2.prevRef)).Nodup) {k k' : String}
    {e e' : ObserverEntry σ T} (h1 : (k, e) ∈ l) (h2 : (k', e') ∈ l)
    (hne : k ≠ k') : e.prevRef ≠ e'.prevRef := by
  intro heq
  exact hne (congrArg Prod.fst (List.inj_on_of_nodup_map h h1 h2 heq))

theorem unvisitedCount_pos {l : List (String × ObserverEntry σ T)}
    {k : String} {e : ObserverEntry σ T} (hmem : (k, e) ∈ l)
    {vis : List String} (hvis : k ∉ vis) : 0 < unvisitedCount vis l :=
  List.countP_pos_iff.mpr ⟨(k, e), hmem, by simpa using hvis⟩

theorem updateLoop_observers_sublist (w : σ) [Inhabited T] :
    ∀ (fuel : Nat) (vis : List String) (s : ManagerState σ T),
      ((updateLoop w fuel vis s).1.observers).Sublist s.observers := by
  intro fuel
  induction fuel with
  | zero => intro vis s; exact List.Sublist.refl _
  | succ fuel ih =>
      intro vis s
      cases hf : findUnvisited vis s.observers with
      | none => simp only [updateLoop, hf]; exact List.Sublist.refl _
      | some p =>
          obtain ⟨k, e⟩ := p
          simp only [updateLoop, hf]
          split
          · exact ih (k :: vis) s
          · refine ((ih (k :: vis) _).trans ?_)
            exact (foldl_unregister_observers_sublist _ _).trans
              (by rw [setRefAt_observers])

theorem updateLoop_refs_length (w : σ) [Inhabited T] :
    ∀ (fuel : Nat) (vis : List String) (s : ManagerState σ T),
      (updateLoop w fuel vis s).1.refs.length = s.refs.length := by
  intro fuel
  induction fuel with
  | zero => intro vis s; rfl
  | succ fuel ih =>
      intro vis s
      cases hf : findUnvisited vis s.observers with
      | none => simp only [updateLoop, hf]
      | some p =>
          obtain ⟨k, e⟩ := p
          simp only [updateLoop, hf]
          split
          · exact ih (k :: vis) s
          · show (updateLoop w fuel (k :: vis) _).1.refs.length = _
            rw [ih (k :: vis) _, foldl_unregister_refs]
            exact List.length_set s.refs e.prevRef _

theorem updateLoop_eval_not_visited (w : σ) [Inhabited T] :
    ∀ (fuel : Nat) (vis : List String) (s : ManagerState σ T) (x : String),
      x ∈ (updateLoop w fuel vis s).2.1 → x ∉ vis := by
  intro fuel
  induction fuel with
  | zero => intro vis s x hx; simp [updateLoop] at hx
  | succ fuel ih =>
      intro vis s x hx
      simp only [updateLoop] at hx
      cases hf : findUnvisited vis s.observers with
      | none => rw [hf] at hx; simp at hx
      | some p =>
          obtain ⟨k, e⟩ := p
          rw [hf] at hx
          by_cases hc : e.compare (s.refs.getD e.prevRef default)
              (e.getNewValue w) = true
          · simp only [hc, if_true, List.mem_cons] at hx
            rcases hx with hx | hx
            · subst hx; exact findUnvisited_not_visited vis s.observers x e hf
            · exact fun hv => ih (k :: vis) s x hx (List.mem_cons_of_mem _ hv)
          · simp only [Bool.not_eq_true] at hc
            simp only [hc, Bool.false_eq_true, if_false, List.mem_cons] at hx
            rcases hx with hx | hx
            · subst hx; exact findUnvisited_not_visited vis s.observers x e hf
            · exact fun hv => ih (k :: vis) _ x hx (List.mem_cons_of_mem _ hv)

theorem updateLoop_eval_nodup (w : σ) [Inhabited T] :
    ∀ (fuel : Nat) (vis : List String) (s : ManagerState σ T),
      (updateLoop w fuel vis s).2.1.Nodup := by
  intro fuel
  induction fuel with
  | zero => intro vis s; simp [updateLoop]
  | succ fuel ih =>
      intro vis s
      simp only [updateLoop]
      cases hf : findUnvisited vis s.observers with
      | none => simp
      | some p =>
          obtain ⟨k, e⟩ := p
          by_cases hc : e.compare (s.refs.getD e.prevRef default)
              (e.getNewValue w) = true
          · simp only [hc, if_true]
            refine List.nodup_cons.mpr ⟨?_, ih (k :: vis) s⟩
            intro hk
            exact updateLoop_eval_not_visited w fuel (k :: vis) s k hk
              (List.mem_cons_self _ _)
          · simp only [Bool.not_eq_true] at hc
            simp only [hc, Bool.false_eq_true, if_false]
            refine List.nodup_cons.mpr ⟨?_, ih (k :: vis) _⟩
            intro hk
            exact updateLoop_eval_not_visited w fuel (k :: vis) _ k hk
              (List.mem_cons_self _ _)

theorem updateLoop_eval_mem_keys (w : σ) [Inhabited T] :
    ∀ (fuel : Nat) (vis : List String) (s : ManagerState σ T) (x : String),
      x ∈ (updateLoop w fuel vis s).2.1 → x ∈ s.observers.map Prod.fst := by
  intro fuel
  induction fuel with
  | zero => intro vis s x hx; simp [updateLoop] at hx
  | succ fuel ih =>
      intro vis s x hx
      simp only [updateLoop] at hx
      cases hf : findUnvisited vis s.observers with
      | none => rw [hf] at hx; simp at hx
      | some p =>
          obtain ⟨k, e⟩ := p
          rw [hf] at hx
          have hkmem : (k, e) ∈ s.observers :=
            findUnvisited_mem vis s.observers k e hf
          by_cases hc : e.compare (s.refs.getD e.prevRef default)
              (e.getNewValue w) = true
          · simp only [hc, if_true, List.mem_cons] at hx
            rcases hx with hx | hx
            · subst hx; exact List.mem_map_of_mem Prod.fst hkmem
            · exact ih (k :: vis) s x hx
          · simp only [Bool.not_eq_true] at hc
            simp only [hc, Bool.false_eq_true, if_false, List.mem_cons] at hx
            rcases hx with hx | hx
            · subst hx; exact List.mem_map_of_mem Prod.fst hkmem
            · have := ih (k :: vis) _ x hx
              have hsub : ((((e.trigger.foldl (fun acc k2 => unregister k2 acc)
                  (setRefAt e.prevRef (e.getNewValue w) s))).observers).map
                    Prod.fst).Sublist (s.observers.map Prod.fst) := by
                refine List.Sublist.map Prod.fst ?_
                exact (foldl_unregister_observers_sublist _ _).trans
                  (by rw [setRefAt_observers])
              exact hsub.subset this

theorem updateLoop_fired_sublist_eval (w : σ) [Inhabited T] :
    ∀ (fuel : Nat) (vis : List String) (s : ManagerState σ T),
      (updateLoop w fuel vis s).2.2.Sublist (updateLoop w fuel vis s).2.1 := by
  intro fuel
  induction fuel with
  | zero => intro vis s; exact List.Sublist.refl _
  | succ fuel ih =>
      intro vis s
      cases hf : findUnvisited vis s.observers with
      | none => simp only [updateLoop, hf]; exact List.Sublist.refl _
      | some p =>
          obtain ⟨k, e⟩ := p
          simp only [updateLoop, hf]
          split
          · exact (ih (k :: vis) s).cons k
          · exact (ih (k :: vis) _).cons₂ k

theorem updateLoop_fired_nodup (w : σ) [Inhabited T] (fuel : Nat)
    (vis : List String) (s : ManagerState σ T) :
    (updateLoop w fuel vis s).2.2.Nodup :=
  (updateLoop_fired_sublist_eval w fuel vis s).nodup
    (updateLoop_eval_nodup w fuel vis s)

theorem updateLoop_fired_mem_keys (w : σ) [Inhabited T] (fuel : Nat)
    (vis : List String) (s : ManagerState σ T) (x : String)
    (hx : x ∈ (updateLoop w fuel vis s).2.2) :
    x ∈ s.observers.map Prod.fst :=
  updateLoop_eval_mem_keys w fuel vis s x
    ((updateLoop_fired_sublist_eval w fuel vis s).subset hx)

end ObserverManager

namespace ObserverManager

variable {σ T : Type}

/-! Semantic lemmas about the live-iteration loop: which ref cells it
writes and which triggers it can fire. -/

theorem updateLoop_refs_getD_preserved (w : σ) [Inhabited T] (r : Nat) :
    ∀ (fuel : Nat) (vis : List String) (s : ManagerState σ T),
      (∀ p ∈ s.observers, p.2.prevRef = r → p.1 ∈ vis) →
      (updateLoop w fuel vis s).1.refs.getD r default =
        s.refs.getD r default := by
  intro fuel
  induction fuel with
  | zero => intro vis s _; rfl
  | succ fuel ih =>
      intro vis s howner
      cases hf : findUnvisited vis s.observers with
      | none => simp only [updateLoop, hf]
      | some p =>
          obtain ⟨k, e⟩ := p
          have hkmem : (k, e) ∈ s.observers :=
            findUnvisited_mem vis s.observers k e hf
          have hknv : k ∉ vis :=
            findUnvisited_not_visited vis s.observers k e hf
          simp only [updateLoop, hf]
          split
          · exact ih (k :: vis) s
              (fun p hp hr => List.mem_cons_of_mem _ (howner p hp hr))
          · have hne : e.prevRef ≠ r := fun h => hknv (howner (k, e) hkmem h)
            have h2 := ih (k :: vis)
              (e.trigger.foldl (fun acc k2 => unregister k2 acc)
                (setRefAt e.prevRef (e.getNewValue w) s))
              (by
                intro p hp hr
                have hmem : p ∈ s.observers :=
                  ((foldl_unregister_observers_sublist _ _).trans
                    (by rw [setRefAt_observers])).subset hp
                exact List.mem_cons_of_mem _ (howner p hmem hr))
            rw [h2, foldl_unregister_refs]
            exact getD_set_ne s.refs e.prevRef r _ _ hne

theorem updateLoop_not_fired (w : σ) [Inhabited T] (k : String) :
    ∀ (fuel : Nat) (vis : List String) (s : ManagerState σ T),
      ((s.observers.map (fun p => p.2.prevRef)).Nodup) →
      (∀ e : ObserverEntry σ T, (k, e) ∈ s.observers →
        e.compare (s.refs.getD e.prevRef default) (e.getNewValue w) = true) →
      k ∉ (updateLoop w fuel vis s).2.2 := by
  intro fuel
  induction fuel with
  | zero => intro vis s _ _; simp [updateLoop]
  | succ fuel ih =>
      intro vis s hprev htrue
      cases hf : findUnvisited vis s.observers with
      | none => simp [updateLoop, hf]
      | some p =>
          obtain ⟨k', e'⟩ := p
          have hmem' : (k', e') ∈ s.observers :=
            findUnvisited_mem vis s.observers k' e' hf
          simp only [updateLoop, hf]
          split
          · exact ih (k' :: vis) s hprev htrue
          · rename_i hc
            have hkk : k ≠ k' := by
              intro h
              subst h
              exact hc (htrue e' hmem')
            simp only [List.mem_cons, not_or]
            refine ⟨hkk, ?_⟩
            refine ih (k' :: vis) _ ?_ ?_
            · refine List.Sublist.nodup ?_ hprev
              refine List.Sublist.map _ ?_
              exact (foldl_unregister_observers_sublist _ _).trans
                (by rw [setRefAt_observers])
            · intro e hmem
              have hmemS : (k, e) ∈ s.observers :=
                ((foldl_unregister_observers_sublist _ _).trans
                  (by rw [setRefAt_observers])).subset hmem
              have hrefne : e'.prevRef ≠ e.prevRef :=
                nodup_prevRef_ne hprev hmem' hmemS (fun h => hkk h.symm)
              rw [foldl_unregister_refs]
              show e.compare (((setRefAt e'.prevRef (e'.getNewValue w)
                s).refs).getD e.prevRef default) (e.getNewValue w) = true
              show e.compare ((s.refs.set e'.prevRef
                (e'.getNewValue w)).getD e.prevRef default)
                (e.getNewValue w) = true
              rw [getD_set_ne s.refs e'.prevRef e.prevRef _ _ hrefne]
              exact htrue e hmemS

end ObserverManager

namespace ObserverManager

variable {σ T : Type}

/-- If an entry `(k, e)` is registered, not yet visited, no trigger of any
current entry unregisters `k`, ref cells are pairwise distinct and valid,
and `e`'s comparison fails on the current heap, then the live iteration
fires `k` and leaves `e.getNewValue w` in `e`'s ref cell. -/
theorem updateLoop_fires (w : σ) [Inhabited T] (k : String)
    (e : ObserverEntry σ T) :
    ∀ (fuel : Nat) (vis : List String) (s : ManagerState σ T),
      unvisitedCount vis s.observers ≤ fuel →
      (s.observers.map Prod.fst).Nodup →
      ((s.observers.map (fun p => p.2.prevRef)).Nodup) →
      (k, e) ∈ s.observers →
      k ∉ vis →
      (∀ p ∈ s.observers, k ∉ p.2.trigger) →
      e.prevRef < s.refs.length →
      e.compare (s.refs.getD e.prevRef default) (e.getNewValue w) = false →
      k ∈ (updateLoop w fuel vis s).2.2 ∧
        (updateLoop w fuel vis s).1.refs.getD e.prevRef default =
          e.getNewValue w := by
  intro fuel
  induction fuel with
  | zero =>
      intro vis s hfuel _ _ hmem hvis _ _ _
      exact absurd hfuel (Nat.not_le.mpr (unvisitedCount_pos hmem hvis))
  | succ fuel ih =>
      intro vis s hfuel hkeys hprev hmem hvis htrig hvalid hcmp
      cases hf : findUnvisited vis s.observers with
      | none =>
          exact absurd (findUnvisited_none vis s.observers hf (k, e) hmem) hvis
      | some p =>
          obtain ⟨k', e'⟩ := p
          have hmem' : (k', e') ∈ s.observers :=
            findUnvisited_mem vis s.observers k' e' hf
          have hvis' : k' ∉ vis :=
            findUnvisited_not_visited vis s.observers k' e' hf
          simp only [updateLoop, hf]
          by_cases hkk : k' = k
          · subst hkk
            have hee : e' = e := nodup_keys_entry_eq hkeys hmem' hmem
            subst hee
            split
            · rename_i hc
              rw [hcmp] at hc
              exact absurd hc (by simp)
            · refine ⟨List.mem_cons_self _ _, ?_⟩
              show (updateLoop w fuel (k' :: vis)
                (e'.trigger.foldl (fun acc k2 => unregister k2 acc)
                  (setRefAt e'.prevRef (e'.getNewValue w) s))).1.refs.getD
                    e'.prevRef default = e'.getNewValue w
              rw [updateLoop_refs_getD_preserved w e'.prevRef fuel (k' :: vis)
                  _ ?_, foldl_unregister_refs]
              · show ((s.refs.set e'.prevRef (e'.getNewValue w)).getD
                  e'.prevRef default) = e'.getNewValue w
                exact getD_set_self s.refs e'.prevRef _ _ hvalid
              · intro p hp hr
                have hpS : p ∈ s.observers :=
                  ((foldl_unregister_observers_sublist _ _).trans
                    (by rw [setRefAt_observers])).subset hp
                by_cases hpk : p.1 = k'
                · exact hpk ▸ List.mem_cons_self _ _
                · exfalso
                  have : (p.1, p.2) ∈ s.observers := by simpa using hpS
                  exact (nodup_prevRef_ne hprev this hmem' hpk) hr
          · have hkk' : k ≠ k' := fun h => hkk h.symm
            split
            · rename_i hc
              refine ih (k' :: vis) s ?_ hkeys hprev hmem ?_ htrig hvalid hcmp
              · have := measure_decrease vis k' e' hf (List.Sublist.refl _)
                omega
              · simp only [List.mem_cons, not_or]
                exact ⟨hkk', hvis⟩
            · rename_i hc
              have hrefne : e'.prevRef ≠ e.prevRef :=
                nodup_prevRef_ne hprev hmem' hmem hkk
              have hsub2 : ((e'.trigger.foldl (fun acc k2 => unregister k2 acc)
                  (setRefAt e'.prevRef (e'.getNewValue w) s)).observers).Sublist
                    s.observers :=
                (foldl_unregister_observers_sublist _ _).trans
                  (by rw [setRefAt_observers])
              have hrefs2 : (e'.trigger.foldl (fun acc k2 => unregister k2 acc)
                  (setRefAt e'.prevRef (e'.getNewValue w) s)).refs =
                    s.refs.set e'.prevRef (e'.getNewValue w) := by
                rw [foldl_unregister_refs]; rfl
              have hmem2 : (k, e) ∈ (e'.trigger.foldl
                  (fun acc k2 => unregister k2 acc)
                  (setRefAt e'.prevRef (e'.getNewValue w) s)).observers := by
                refine foldl_unregister_mem _ _ k e ?_ (htrig (k', e') hmem')
                rw [setRefAt_observers]; exact hmem
              have hrec := ih (k' :: vis)
                (e'.trigger.foldl (fun acc k2 => unregister k2 acc)
                  (setRefAt e'.prevRef (e'.getNewValue w) s)) ?_ ?_ ?_ hmem2
                ?_ ?_ ?_ ?_
              · exact ⟨List.mem_cons_of_mem _ hrec.1, hrec.2⟩
              · have := measure_decrease vis k' e' hf hsub2
                omega
              · exact ((List.Sublist.map Prod.fst hsub2)).nodup hkeys
              · exact ((List.Sublist.map (fun p => p.2.prevRef) hsub2)).nodup
                  hprev
              · simp only [List.mem_cons, not_or]
                exact ⟨hkk', hvis⟩
              · exact fun p hp => htrig p (hsub2.subset hp)
              · rw [hrefs2, List.length_set]; exact hvalid
              · rw [hrefs2,
                  getD_set_ne s.refs e'.prevRef e.prevRef _ _ hrefne]
                exact hcmp

end ObserverManager

namespace ObserverManager

variable {σ T : Type}

/-- The live iterator's next entry is the head of the unvisited-filtered
map. -/
theorem findUnvisited_eq_head_filter (vis : List String)
    (l : List (String × ObserverEntry σ T)) :
    findUnvisited vis l =
      (l.filter (fun p => decide (p.1 ∉ vis))).head? := by
  induction l with
  | nil => rfl
  | cons p rest ih =>
      obtain ⟨k, e⟩ := p
      by_cases hv : k ∈ vis
      · simp [findUnvisited, hv, List.filter_cons, ih]
      · simp [findUnvisited, hv, List.filter_cons]

/-- Marking one more key visited composes the unvisited filter with a
key-difference filter. -/
theorem filter_unvisited_cons (k : String) (vis : List String)
    (l : List (String × ObserverEntry σ T)) :
    l.filter (fun p => decide (p.1 ∉ k :: vis)) =
      (l.filter (fun p => decide (p.1 ∉ vis))).filter
        (fun p => decide (p.1 ≠ k)) := by
  rw [List.filter_filter]
  refine List.filter_congr ?_
  intro p _
  by_cases h1 : p.1 = k <;> by_cases h2 : p.1 ∈ vis <;> simp [h1, h2]

/-- With pairwise-distinct keys, dropping the head of the unvisited
filter is exactly filtering its key away. -/
theorem filter_ne_head (k : String) (e : ObserverEntry σ T)
    (rest l : List (String × ObserverEntry σ T)) (q : _ → Bool)
    (hkeys : (l.map Prod.fst).Nodup) (hfil : l.filter q = (k, e) :: rest) :
    ((k, e) :: rest).filter (fun p => decide (p.1 ≠ k)) = rest := by
  have hsub : ((k, e) :: rest).Sublist l := hfil ▸ List.filter_sublist l
  have hknodup : ((((k, e) :: rest)).map Prod.fst).Nodup :=
    (List.Sublist.map Prod.fst hsub).nodup hkeys
  simp only [List.map_cons, List.nodup_cons] at hknodup
  have hd : ((k, e) :: rest).filter (fun p => decide (p.1 ≠ k)) =
      rest.filter (fun p => decide (p.1 ≠ k)) := by
    simp [List.filter_cons]
  rw [hd]
  refine List.filter_eq_self.mpr ?_
  intro p hp
  have : p.1 ∈ rest.map Prod.fst := List.mem_map_of_mem Prod.fst hp
  simp only [ne_eq, decide_not, Bool.not_eq_true', decide_eq_false_iff_not]
  exact fun h => hknodup.1 (h ▸ this)

/-- When no trigger in the registry unregisters anything, a tick with
enough fuel evaluates exactly the currently unvisited entries, in map
order, and leaves the entry map unchanged. -/
theorem updateLoop_eval_effectfree (w : σ) [Inhabited T] :
    ∀ (fuel : Nat) (vis : List String) (s : ManagerState σ T),
      (∀ p ∈ s.observers, p.2.trigger = ([] : List String)) →
      (s.observers.map Prod.fst).Nodup →
      unvisitedCount vis s.observers ≤ fuel →
      (updateLoop w fuel vis s).2.1 =
        (s.observers.filter (fun p => decide (p.1 ∉ vis))).map Prod.fst ∧
      (updateLoop w fuel vis s).1.observers = s.observers := by
  intro fuel
  induction fuel with
  | zero =>
      intro vis s _ _ hfuel
      have h0 : unvisitedCount vis s.observers = 0 := Nat.le_zero.mp hfuel
      unfold unvisitedCount at h0
      rw [List.countP_eq_length_filter, List.length_eq_zero] at h0
      rw [h0]
      exact ⟨rfl, rfl⟩
  | succ fuel ih =>
      intro vis s htrig hkeys hfuel
      cases hf : findUnvisited vis s.observers with
      | none =>
          have hnil : s.observers.filter (fun p => decide (p.1 ∉ vis)) = [] := by
            rw [findUnvisited_eq_head_filter] at hf
            cases hl : s.observers.filter (fun p => decide (p.1 ∉ vis)) with
            | nil => rfl
            | cons a rest => rw [hl] at hf; simp at hf
          simp only [updateLoop, hf, hnil]
          exact ⟨rfl, trivial⟩
      | some p =>
          obtain ⟨k, e⟩ := p
          have hmem : (k, e) ∈ s.observers :=
            findUnvisited_mem vis s.observers k e hf
          have hrest : ∃ rest, s.observers.filter
              (fun p => decide (p.1 ∉ vis)) = (k, e) :: rest := by
            rw [findUnvisited_eq_head_filter] at hf
            cases hl : s.observers.filter (fun p => decide (p.1 ∉ vis)) with
            | nil => rw [hl] at hf; simp at hf
            | cons a rest =>
                rw [hl] at hf
                simp only [List.head?_cons, Option.some_inj] at hf
                exact ⟨rest, by rw [hf]⟩
          obtain ⟨rest, hrest⟩ := hrest
          have hstep : s.observers.filter (fun p => decide (p.1 ∉ k :: vis)) =
              rest := by
            rw [filter_unvisited_cons, hrest]
            exact filter_ne_head k e rest s.observers _ hkeys hrest
          have hμ : unvisitedCount (k :: vis) s.observers ≤ fuel := by
            have := measure_decrease vis k e hf (List.Sublist.refl s.observers)
            omega
          simp only [updateLoop, hf]
          split
          · have hrec := ih (k :: vis) s htrig hkeys hμ
            refine ⟨?_, hrec.2⟩
            rw [hrec.1, hstep, hrest]
            rfl
          · have htk : e.trigger = [] := htrig (k, e) hmem
            rw [htk]
            simp only [List.foldl_nil]
            have hobs : (setRefAt e.prevRef (e.getNewValue w) s).observers =
                s.observers := rfl
            have hrec := ih (k :: vis)
              (setRefAt e.prevRef (e.getNewValue w) s)
              (by rw [hobs]; exact htrig) (by rw [hobs]; exact hkeys)
              (by
                show unvisitedCount (k :: vis)
                  (setRefAt e.prevRef (e.getNewValue w) s).observers ≤ fuel
                rw [hobs]; exact hμ)
            refine ⟨?_, by rw [hrec.2, hobs]⟩
            rw [hrec.1]
            show _ = (s.observers.filter (fun p => decide (p.1 ∉ vis))).map
              Prod.fst
            rw [hobs, hstep, hrest]
            rfl

end ObserverManager

namespace ObserverManager

variable {σ T : Type}

/-! Helper lemmas about `register`, `unregister` and `update` as state
transformers. -/

theorem register_observers (key : String) (g : σ → T) (c : T → T → Bool)
    (t : List String) (p : Nat) (s : ManagerState σ T) :
    (register key g c t p s).observers =
      mapSet key ⟨g, c, t, p⟩ s.observers := by
  simp only [register]
  cases s.animationId <;> rfl

theorem register_refs (key : String) (g : σ → T) (c : T → T → Bool)
    (t : List String) (p : Nat) (s : ManagerState σ T) :
    (register key g c t p s).refs = s.refs := by
  simp only [register]
  cases s.animationId <;> rfl

theorem register_animationId_isSome (key : String) (g : σ → T)
    (c : T → T → Bool) (t : List String) (p : Nat) (s : ManagerState σ T) :
    (register key g c t p s).animationId.isSome = true := by
  simp only [register]
  cases s.animationId <;> rfl

theorem mapSet_isEmpty (k : String) (v : ObserverEntry σ T)
    (l : List (String × ObserverEntry σ T)) :
    (mapSet k v l).isEmpty = false := by
  cases l with
  | nil => rfl
  | cons p rest =>
      obtain ⟨k', v'⟩ := p
      simp only [mapSet]
      split <;> rfl

theorem loopInv_register (key : String) (g : σ → T) (c : T → T → Bool)
    (t : List String) (p : Nat) (s : ManagerState σ T) :
    loopInv (register key g c t p s) := by
  unfold loopInv
  rw [register_animationId_isSome, register_observers, mapSet_isEmpty]
  rfl

theorem unregister_animationId (key : String) (s : ManagerState σ T) :
    (unregister key s).animationId =
      if ((s.observers.filter (fun p => p.1 ≠ key)).isEmpty = true ∧
          s.animationId ≠ none) then none else s.animationId := by
  simp only [unregister]
  split <;> rfl

theorem loopInv_unregister (key : String) (s : ManagerState σ T)
    (hinv : loopInv s) : loopInv (unregister key s) := by
  unfold loopInv at hinv ⊢
  rw [unregister_animationId, unregister_observers]
  by_cases hF : (s.observers.filter (fun p => p.1 ≠ key)).isEmpty = true
  · by_cases hA : s.animationId = none
    · rw [if_neg (fun hc => hc.2 hA)]
      rw [hA] at hinv ⊢
      simp only [Option.isSome_none] at hinv ⊢
      have hOE : s.observers = [] := by
        cases hbe : s.observers.isEmpty with
        | true => exact List.isEmpty_iff.mp hbe
        | false => rw [hbe] at hinv; simp at hinv
      rw [hOE]
      rfl
    · rw [if_pos ⟨hF, hA⟩, hF]
      rfl
  · rw [if_neg (fun hc => hF hc.1)]
    have hne : s.observers.isEmpty = false := by
      cases hbe : s.observers with
      | nil =>
          exfalso
          exact hF (by rw [hbe]; rfl)
      | cons a rest => rfl
    rw [hne] at hinv
    simp only [Bool.not_false] at hinv
    rw [hinv]
    simp only [Bool.not_eq_true] at hF
    rw [hF]
    rfl

end ObserverManager

namespace ObserverManager

variable {σ T : Type}

theorem update_fired_eq (w : σ) [Inhabited T] (s : ManagerState σ T) :
    (update w s).2.2 = (updateLoop w s.observers.length [] s).2.2 := rfl

theorem update_eval_eq (w : σ) [Inhabited T] (s : ManagerState σ T) :
    (update w s).2.1 = (updateLoop w s.observers.length [] s).2.1 := rfl

theorem update_refs_eq (w : σ) [Inhabited T] (s : ManagerState σ T) :
    (update w s).1.refs = (updateLoop w s.observers.length [] s).1.refs := rfl

theorem update_observers_eq (w : σ) [Inhabited T] (s : ManagerState σ T) :
    (update w s).1.observers =
      (updateLoop w s.observers.length [] s).1.observers := rfl

theorem update_animationId_isSome (w : σ) [Inhabited T]
    (s : ManagerState σ T) : (update w s).1.animationId.isSome = true := rfl

theorem update_fuel_suffices (vis : List String)
    (l : List (String × ObserverEntry σ T)) :
    unvisitedCount ([] : List String) l ≤ l.length := by
  rw [unvisitedCount_nil]

/-- An entry whose comparator returns true on every pair never fires during
the live iteration. -/
theorem updateLoop_not_fired_const (w : σ) [Inhabited T] (k : String) :
    ∀ (fuel : Nat) (vis : List String) (s : ManagerState σ T),
      (∀ e : ObserverEntry σ T, (k, e) ∈ s.observers →
        ∀ a b, e.compare a b = true) →
      k ∉ (updateLoop w fuel vis s).2.2 := by
  intro fuel
  induction fuel with
  | zero => intro vis s _; simp [updateLoop]
  | succ fuel ih =>
      intro vis s htrue
      cases hf : findUnvisited vis s.observers with
      | none => simp [updateLoop, hf]
      | some p =>
          obtain ⟨k', e'⟩ := p
          have hmem' : (k', e') ∈ s.observers :=
            findUnvisited_mem vis s.observers k' e' hf
          simp only [updateLoop, hf]
          split
          · exact ih (k' :: vis) s htrue
          · rename_i hc
            have hkk : k ≠ k' := by
              intro h
              subst h
              exact hc (htrue e' hmem' _ _)
            simp only [List.mem_cons, not_or]
            refine ⟨hkk, ?_⟩
            refine ih (k' :: vis) _ ?_
            intro e hmem a b
            have hmemS : (k, e) ∈ s.observers :=
              ((foldl_unregister_observers_sublist _ _).trans
                (by rw [setRefAt_observers])).subset hmem
            exact htrue e hmemS a b

/-- Over any sequence of ticks, an entry whose comparator is constantly
true never fires. -/
theorem runTicks_not_fired_const [Inhabited T] (k : String) :
    ∀ (ws : List σ) (s : ManagerState σ T),
      (∀ e : ObserverEntry σ T, (k, e) ∈ s.observers →
        ∀ a b, e.compare a b = true) →
      k ∉ (runTicks ws s).2 := by
  intro ws
  induction ws with
  | nil => intro s _; simp [runTicks]
  | cons w ws ih =>
      intro s htrue
      simp only [runTicks, List.mem_append, not_or]
      constructor
      · rw [update_fired_eq]
        exact updateLoop_not_fired_const w k _ [] s htrue
      · refine ih _ ?_
        intro e hmem a b
        have : (k, e) ∈ s.observers := by
          rw [update_observers_eq] at hmem
          exact (updateLoop_observers_sublist w _ [] s).subset hmem
        exact htrue e this a b

end ObserverManager

namespace ObserverManager

variable {σ T : Type}

/-! Claim theorems. -/

/-- C4: refuted on the code and the spec is the documented intent
(`generateKey`'s own doc comment promises "a unique key"), so this records
the code bug: because `unregister` decrements `idCounter` unconditionally,
the sequence generateKey, unregister "k", generateKey returns the string
"observer_0" twice, violating pairwise distinctness of generated keys. -/
theorem generateKey_collision_after_unregister :
    (generateKey (initial ([] : List Nat) : ManagerState Unit Nat)).1 =
      "observer_0" ∧
    (generateKey (unregister "k"
      (generateKey
        (initial ([] : List Nat) : ManagerState Unit Nat)).2)).1 =
      "observer_0" := by
  constructor <;> rfl

/-- C7: the code bug behind the refuted claim: unregistering an absent key
raises no error and leaves the entry map and the loop handle unchanged,
but it is not a no-op: the key counter `idCounter` is decremented from 0
to -1 by the unconditional `this.idCounter--`. -/
theorem unregister_absent_key_decrements_counter :
    (unregister "absent"
      (initial ([] : List Nat) : ManagerState Unit Nat)).observers.isEmpty
        = true ∧
    (unregister "absent"
      (initial ([] : List Nat) : ManagerState Unit Nat)).animationId
        = none ∧
    (initial ([] : List Nat) : ManagerState Unit Nat).idCounter = 0 ∧
    (unregister "absent"
      (initial ([] : List Nat) : ManagerState Unit Nat)).idCounter = -1 := by
  refine ⟨rfl, rfl, rfl, rfl⟩

/-- C8: `useValue` returns the getter's value evaluated synchronously at
call time, and is exactly `useDetector` composed with an immediate
evaluation of the getter. -/
theorem useValue_is_useDetector_with_immediate_eval {σ T : Type} [BEq T]
    (g : σ → T) (c : Option (T → T → Bool)) (k : Option String) (w : σ) :
    (useValue g c k w).ret = g w ∧
    useValue g c k w = useDetector (g w) g c k w :=
  ⟨rfl, rfl⟩

/-- C2 counterexample: the loop-handle iff non-empty invariant is not
preserved by a tick that empties the registry: starting from the reachable
state with one self-unregistering entry, in which the invariant holds, one
tick leaves the registry empty yet reschedules unconditionally, so the
handle is set while the map is empty. -/
theorem loop_lifecycle_counterexample :
    loopInv exampleSelfUnreg ∧
    (update () exampleSelfUnreg).1.observers.isEmpty = true ∧
    ¬ loopInv (update () exampleSelfUnreg).1 := by
  refine ⟨by unfold loopInv; decide, by decide, by unfold loopInv; decide⟩

/-- C2 amended: the handle-iff-non-empty invariant holds after any
`register`, is preserved by `unregister`, and after a tick the handle is
always set (the tick reschedules unconditionally), so the invariant holds
after a tick exactly when the registry is non-empty at the tick's end; a
tick that empties the registry breaks it. -/
theorem loop_lifecycle_amended (w : σ) [Inhabited T] (key : String)
    (g : σ → T) (c : T → T → Bool) (t : List String) (p : Nat)
    (s : ManagerState σ T) :
    loopInv (register key g c t p s) ∧
    (loopInv s → loopInv (unregister key s)) ∧
    (update w s).1.animationId.isSome = true ∧
    ((update w s).1.observers.isEmpty = false → loopInv (update w s).1) := by
  refine ⟨loopInv_register key g c t p s, loopInv_unregister key s,
    update_animationId_isSome w s, ?_⟩
  intro h
  unfold loopInv
  rw [update_animationId_isSome, h]
  rfl

/-- Witness for the amended loop-lifecycle theorem at concrete inputs. -/
theorem loop_lifecycle_amended_witness :
    loopInv (register "a" (fun _ => (2 : Nat)) (fun a b => a == b) [] 0
      exampleEntryState) ∧
    loopInv (unregister "a" exampleEntryState) ∧
    (update () exampleEntryState).1.animationId.isSome = true ∧
    loopInv (update () exampleEntryState).1 := by
  obtain ⟨h1, h2, h3, h4⟩ := loop_lifecycle_amended () "a"
    (fun _ => (2 : Nat)) (fun a b => a == b) [] 0 exampleEntryState
  exact ⟨h1, h2 (by unfold loopInv; decide), h3, h4 (by decide)⟩

end ObserverManager

namespace ObserverManager

variable {σ T : Type}

/-- C9: if an entry's comparator accepts the stored previous value and the
freshly evaluated value (given pairwise-distinct keys and ref cells), its
notify is not invoked that tick; and an entry whose comparator returns
true on every pair never fires on any tick. -/
theorem no_notify_on_equal (w : σ) [Inhabited T] (k : String)
    (s : ManagerState σ T) :
    ((s.observers.map Prod.fst).Nodup →
      (s.observers.map (fun p => p.2.prevRef)).Nodup →
      ∀ e : ObserverEntry σ T, (k, e) ∈ s.observers →
        e.compare (s.refs.getD e.prevRef default) (e.getNewValue w) = true →
        k ∉ (update w s).2.2) ∧
    ((∀ e : ObserverEntry σ T, (k, e) ∈ s.observers →
        ∀ a b, e.compare a b = true) →
      ∀ ws : List σ, k ∉ (runTicks ws s).2) := by
  constructor
  · intro hkeys hprev e hmem hcmp
    rw [update_fired_eq]
    refine updateLoop_not_fired w k _ [] s hprev ?_
    intro e' hmem'
    have he : e' = e := nodup_keys_entry_eq hkeys hmem' hmem
    rw [he]
    exact hcmp
  · intro htrue ws
    exact runTicks_not_fired_const k ws s htrue

/-- Witness for the no-notify-on-equal theorem at concrete inputs. -/
theorem no_notify_on_equal_witness :
    "q" ∉ (update () exampleQuiet).2.2 ∧
    "c" ∉ (runTicks [(), (), ()] exampleConstTrue).2 := by
  constructor
  · refine (no_notify_on_equal () "q" exampleQuiet).1 (by decide) (by decide)
      ⟨fun _ => 5, fun a b => a == b, [], 0⟩ ?_ (by decide)
    exact List.mem_singleton.mpr rfl
  · refine (no_notify_on_equal () "c" exampleConstTrue).2 ?_ [(), (), ()]
    intro e hmem a b
    have he : e = ⟨fun _ => 3, fun x y => true, [], 0⟩ := by
      have : ("c", e) ∈ exampleConstTrue.observers := hmem
      rw [show exampleConstTrue.observers =
        [("c", ⟨fun _ => 3, fun x y => true, [], 0⟩)] from rfl] at this
      have := List.mem_singleton.mp this
      exact congrArg Prod.snd this
    rw [he]

/-- C1 counterexample: an entry registered at tick start whose comparison
is false can nonetheless fire zero times that tick, and its ref cell stays
unchanged: in `exampleUnregOther`, entry `"a"` is iterated first and its
notify unregisters `"b"` before the live iterator reaches it, so `"b"` is
skipped although its comparison with the fresh value is false. -/
theorem notify_on_change_counterexample :
    "b" ∈ keys exampleUnregOther ∧
    ((lookup "b" exampleUnregOther.observers).map (fun e =>
      e.compare (exampleUnregOther.refs.getD e.prevRef 0) (e.getNewValue ()))
        = some false) ∧
    (update () exampleUnregOther).2.2.count "b" = 0 ∧
    (update () exampleUnregOther).1.refs.getD 1 0 = 0 := by
  refine ⟨by decide, by decide, by decide, by decide⟩

/-- C1 amended: for an entry with pairwise-distinct keys and valid,
pairwise-distinct ref cells, provided no notify callback fired during the
tick unregisters it, a false comparison makes its notify fire exactly once
that tick and leaves the freshly evaluated value in its ref cell. -/
theorem notify_on_change_amended (w : σ) [Inhabited T] (k : String)
    (e : ObserverEntry σ T) (s : ManagerState σ T)
    (hkeys : (s.observers.map Prod.fst).Nodup)
    (hprev : (s.observers.map (fun p => p.2.prevRef)).Nodup)
    (hmem : (k, e) ∈ s.observers)
    (htrig : ∀ p ∈ s.observers, k ∉ p.2.trigger)
    (hvalid : e.prevRef < s.refs.length)
    (hcmp : e.compare (s.refs.getD e.prevRef default) (e.getNewValue w) =
      false) :
    (update w s).2.2.count k = 1 ∧
    (update w s).1.refs.getD e.prevRef default = e.getNewValue w := by
  have h := updateLoop_fires w k e s.observers.length [] s
    (by rw [unvisitedCount_nil]) hkeys hprev hmem (by simp) htrig hvalid hcmp
  rw [update_fired_eq, update_refs_eq]
  exact ⟨List.count_eq_one_of_mem (updateLoop_fired_nodup w _ [] s) h.1, h.2⟩

/-- Witness for the amended notify-on-change theorem at concrete inputs. -/
theorem notify_on_change_amended_witness :
    (update () exampleEntryState).2.2.count "a" = 1 ∧
    (update () exampleEntryState).1.refs.getD 0 0 = 1 := by
  refine notify_on_change_amended () "a"
    ⟨fun _ => 1, fun a b => a == b, [], 0⟩ exampleEntryState
    (by decide) (by decide) ?_ (by decide) (by decide) (by decide)
  exact List.mem_singleton.mpr rfl

/-- C3 counterexample: the set of entries evaluated in a tick is not the
set registered at its start: in `exampleUnregOther`, `"b"` is registered
at tick start but is unregistered by `"a"`'s notify before the live
iterator reaches it, so only one of the two start entries is evaluated. -/
theorem snapshot_isolation_counterexample :
    "b" ∈ keys exampleUnregOther ∧
    "b" ∉ (update () exampleUnregOther).2.1 ∧
    (update () exampleUnregOther).2.1.length ≠
      exampleUnregOther.observers.length := by
  refine ⟨by decide, by decide, by decide⟩

/-- C3 amended: iteration tolerates removal during a tick without error:
every evaluated key was registered at tick start and is evaluated at most
once; when no notify fired during the tick unregisters anything (and keys
are pairwise distinct), the evaluated keys are exactly the keys registered
at tick start, in order; and a key absent from the registry is never
evaluated, so an entry unregistered during tick N is not evaluated from
tick N+1 on.  An entry unregistered before the iterator reaches it is,
however, skipped within the same tick. -/
theorem snapshot_isolation_amended (w : σ) [Inhabited T]
    (s : ManagerState σ T) (k : String) :
    (∀ x ∈ (update w s).2.1, x ∈ keys s) ∧
    (update w s).2.1.Nodup ∧
    ((∀ p ∈ s.observers, p.2.trigger = ([] : List String)) →
      (s.observers.map Prod.fst).Nodup →
      (update w s).2.1 = keys s) ∧
    (k ∉ keys s → k ∉ (update w s).2.1) := by
  have hmemkeys : ∀ x ∈ (update w s).2.1, x ∈ keys s := by
    intro x hx
    rw [update_eval_eq] at hx
    exact updateLoop_eval_mem_keys w _ [] s x hx
  refine ⟨hmemkeys, ?_, ?_, ?_⟩
  · rw [update_eval_eq]
    exact updateLoop_eval_nodup w _ [] s
  · intro htrig hkeys
    rw [update_eval_eq]
    have h := (updateLoop_eval_effectfree w s.observers.length [] s htrig
      hkeys (by rw [unvisitedCount_nil])).1
    rw [h]
    unfold keys
    congr 1
    refine List.filter_eq_self.mpr ?_
    intro p _
    simp
  · intro hk hx
    exact hk (hmemkeys k hx)

/-- Witness for the amended snapshot-isolation theorem at concrete
inputs. -/
theorem snapshot_isolation_amended_witness :
    (update () exampleEntryState).2.1 = keys exampleEntryState ∧
    "zzz" ∉ (update () exampleEntryState).2.1 := by
  obtain ⟨h1, h2, h3, h4⟩ := snapshot_isolation_amended ()
    exampleEntryState "zzz"
  exact ⟨h3 (by decide) (by decide), h4 (by decide)⟩

end ObserverManager

namespace ObserverManager

variable {σ T : Type}

/-- C5: registering twice under the same key leaves exactly one entry for
that key, the looked-up entry is the second registration's tuple, and the
next tick is driven by the second registration's getter and comparator:
under the usual well-formedness conditions it fires (exactly once) when
the second comparator rejects the stored value against the second getter's
value, and does not fire when the second comparator accepts them.
Registration itself is total and never fails. -/
theorem register_overwrite_semantics (w : σ) [Inhabited T] (k : String)
    (g1 g2 : σ → T) (c1 c2 : T → T → Bool) (t1 t2 : List String)
    (p1 p2 : Nat) (s : ManagerState σ T)
    (hkeys : (s.observers.map Prod.fst).Nodup) :
    (((register k g2 c2 t2 p2 (register k g1 c1 t1 p1 s)).observers.map
        Prod.fst).count k = 1) ∧
    (lookup k (register k g2 c2 t2 p2
        (register k g1 c1 t1 p1 s)).observers = some ⟨g2, c2, t2, p2⟩) ∧
    ((((register k g2 c2 t2 p2 (register k g1 c1 t1 p1 s)).observers.map
        (fun q => q.2.prevRef)).Nodup) →
      (∀ q ∈ (register k g2 c2 t2 p2
          (register k g1 c1 t1 p1 s)).observers, k ∉ q.2.trigger) →
      p2 < s.refs.length →
      c2 (s.refs.getD p2 default) (g2 w) = false →
      (update w (register k g2 c2 t2 p2
        (register k g1 c1 t1 p1 s))).2.2.count k = 1) ∧
    ((((register k g2 c2 t2 p2 (register k g1 c1 t1 p1 s)).observers.map
        (fun q => q.2.prevRef)).Nodup) →
      c2 (s.refs.getD p2 default) (g2 w) = true →
      k ∉ (update w (register k g2 c2 t2 p2
        (register k g1 c1 t1 p1 s))).2.2) := by
  have hobs : (register k g2 c2 t2 p2
      (register k g1 c1 t1 p1 s)).observers =
      mapSet k ⟨g2, c2, t2, p2⟩ (mapSet k ⟨g1, c1, t1, p1⟩ s.observers) := by
    rw [register_observers, register_observers]
  have hrefs : (register k g2 c2 t2 p2
      (register k g1 c1 t1 p1 s)).refs = s.refs := by
    rw [register_refs, register_refs]
  have hkeys1 : ((mapSet k (⟨g1, c1, t1, p1⟩ : ObserverEntry σ T)
      s.observers).map Prod.fst).Nodup := keys_mapSet_nodup k _ _ hkeys
  have hkeys2 : ((register k g2 c2 t2 p2
      (register k g1 c1 t1 p1 s)).observers.map Prod.fst).Nodup := by
    rw [hobs]
    exact keys_mapSet_nodup k _ _ hkeys1
  have hmem2 : (k, (⟨g2, c2, t2, p2⟩ : ObserverEntry σ T)) ∈
      (register k g2 c2 t2 p2 (register k g1 c1 t1 p1 s)).observers := by
    rw [hobs]
    exact mem_mapSet_self k _ _
  refine ⟨?_, ?_, ?_, ?_⟩
  · rw [hobs]
    exact count_keys_mapSet k _ _ hkeys1
  · rw [hobs]
    exact lookup_mapSet_self k _ _
  · intro hprev htrig hvalid hcmp
    rw [update_fired_eq]
    have h := updateLoop_fires w k ⟨g2, c2, t2, p2⟩
      (register k g2 c2 t2 p2 (register k g1 c1 t1 p1 s)).observers.length
      [] (register k g2 c2 t2 p2 (register k g1 c1 t1 p1 s))
      (by rw [unvisitedCount_nil]) hkeys2 hprev hmem2 (by simp) htrig
      (by rw [hrefs]; exact hvalid) (by rw [hrefs]; exact hcmp)
    exact List.count_eq_one_of_mem (updateLoop_fired_nodup w _ [] _) h.1
  · intro hprev hcmp
    rw [update_fired_eq]
    refine updateLoop_not_fired w k _ [] _ hprev ?_
    intro e' hmem'
    have he : e' = ⟨g2, c2, t2, p2⟩ :=
      nodup_keys_entry_eq hkeys2 hmem' hmem2
    rw [he, hrefs]
    exact hcmp

/-- Witness for the overwrite-semantics theorem at concrete inputs. -/
theorem register_overwrite_semantics_witness :
    ((exampleOverwrite.observers.map Prod.fst).count "k" = 1) ∧
    (lookup "k" exampleOverwrite.observers =
      some ⟨fun _ => 7, fun a b => a == b, [], 0⟩) ∧
    ((update () exampleOverwrite).2.2.count "k" = 1) := by
  obtain ⟨h1, h2, h3, h4⟩ := register_overwrite_semantics () "k"
    (fun _ => 2) (fun _ => 7) (fun b c => b == 0) (fun a b => a == b)
    ["x"] [] 0 0 (initial [0]) (by decide)
  exact ⟨h1, h2, h3 (by decide) (by decide) (by decide) (by decide)⟩

/-- C6 counterexample: re-registration does reset the comparison baseline
when the caller supplies a ref cell holding a different value: in
`exampleRereg2`, the previously stored previous value is 5 and the getter
still returns 5, yet the next tick fires `"k"` because the re-registration
replaced the entry's ref cell with one holding 99. -/
theorem rereg_baseline_counterexample :
    exampleRereg1.refs.getD 0 0 = 5 ∧
    ((lookup "k" exampleRereg2.observers).map
      (fun e => e.getNewValue ()) = some 5) ∧
    "k" ∈ (update () exampleRereg2).2.2 := by
  refine ⟨by decide, by decide, by decide⟩

/-- C6 amended: registration never writes any ref cell, so re-registering
a key while supplying the same ref cell (as a re-rendering component does)
keeps the previously stored previous value as the comparison baseline, and
with that kept baseline accepted by the new comparator against the new
getter's value, the next tick does not fire the entry; supplying a ref
cell holding a different value resets the baseline instead. -/
theorem rereg_same_ref_keeps_baseline (w : σ) [Inhabited T] (k : String)
    (g1 g2 : σ → T) (c1 c2 : T → T → Bool) (t1 t2 : List String) (p : Nat)
    (s : ManagerState σ T) :
    ((register k g2 c2 t2 p (register k g1 c1 t1 p s)).refs = s.refs) ∧
    (lookup k (register k g2 c2 t2 p
        (register k g1 c1 t1 p s)).observers = some ⟨g2, c2, t2, p⟩) ∧
    ((s.observers.map Prod.fst).Nodup →
      (((register k g2 c2 t2 p (register k g1 c1 t1 p s)).observers.map
        (fun q => q.2.prevRef)).Nodup) →
      c2 (s.refs.getD p default) (g2 w) = true →
      k ∉ (update w (register k g2 c2 t2 p
        (register k g1 c1 t1 p s))).2.2) := by
  have hobs : (register k g2 c2 t2 p (register k g1 c1 t1 p s)).observers =
      mapSet k ⟨g2, c2, t2, p⟩ (mapSet k ⟨g1, c1, t1, p⟩ s.observers) := by
    rw [register_observers, register_observers]
  have hrefs : (register k g2 c2 t2 p
      (register k g1 c1 t1 p s)).refs = s.refs := by
    rw [register_refs, register_refs]
  refine ⟨hrefs, ?_, ?_⟩
  · rw [hobs]
    exact lookup_mapSet_self k _ _
  · intro hkeys hprev hcmp
    have hkeys2 : ((register k g2 c2 t2 p
        (register k g1 c1 t1 p s)).observers.map Prod.fst).Nodup := by
      rw [hobs]
      exact keys_mapSet_nodup k _ _ (keys_mapSet_nodup k _ _ hkeys)
    have hmem2 : (k, (⟨g2, c2, t2, p⟩ : ObserverEntry σ T)) ∈
        (register k g2 c2 t2 p (register k g1 c1 t1 p s)).observers := by
      rw [hobs]
      exact mem_mapSet_self k _ _
    rw [update_fired_eq]
    refine updateLoop_not_fired w k _ [] _ hprev ?_
    intro e' hmem'
    have he : e' = ⟨g2, c2, t2, p⟩ := nodup_keys_entry_eq hkeys2 hmem' hmem2
    rw [he, hrefs]
    exact hcmp

/-- Witness for the kept-baseline theorem at concrete inputs. -/
theorem rereg_same_ref_keeps_baseline_witness :
    exampleReregSame.refs = [5] ∧
    "k" ∉ (update () exampleReregSame).2.2 := by
  obtain ⟨h1, h2, h3⟩ := rereg_same_ref_keeps_baseline () "k"
    (fun _ => 9) (fun _ => 5) (fun a b => a == b) (fun a b => a == b)
    [] [] 0 (initial [5])
  exact ⟨h1, h3 (by decide) (by decide) (by decide)⟩

end ObserverManager
